import Mathlib

/-!
A shallow embedding of the EdgeGit Cloudflare Worker (`src/index.ts`): a Git
Smart-HTTP server that keeps refs and packfiles in an R2 blob store. Byte
buffers (`Uint8Array`) are embedded as `List Nat` (byte values), JS strings
as `String`, and the R2 bucket as an association list kept in lexicographic
key order (the order `R2Bucket.list` enumerates objects in). JS numbers used
as cursors are `Option Int` with `none` standing for `NaN`.
-/

set_option maxHeartbeats 1000000
set_option maxRecDepth 1000000

deriving instance DecidableEq for Except

/-- UTF-8 encoding of one scalar value (`TextEncoder` on one code point). -/
def utf8EncodeChar (c : Char) : List Nat :=
  let n := c.toNat
  if n < 128 then [n]
  else if n < 2048 then [192 + n / 64, 128 + n % 64]
  else if n < 65536 then [224 + n / 4096, 128 + n / 64 % 64, 128 + n % 64]
  else [240 + n / 262144, 128 + n / 4096 % 64, 128 + n / 64 % 64, 128 + n % 64]

/-- `TextEncoder.encode`: the UTF-8 bytes of a string. -/
def utf8Encode (s : String) : List Nat :=
  (s.data.map utf8EncodeChar).flatten

/-- A UTF-8 continuation byte. -/
def isCont (b : Nat) : Bool := 128 ≤ b && b ≤ 191

/-- WHATWG UTF-8 decoding to code points, replacing each maximal invalid
subpart with U+FFFD (the behavior of `TextDecoder.decode`). The fuel only
drives the recursion; every step consumes at least one byte, so
`utf8Decode` supplies the input length as fuel, which is always enough. -/
def utf8DecodeAux : Nat → List Nat → List Nat
  | 0, _ => []
  | _ + 1, [] => []
  | fuel + 1, b :: rest =>
    if b < 128 then b :: utf8DecodeAux fuel rest
    else if b < 194 then 65533 :: utf8DecodeAux fuel rest
    else if b < 224 then
      match rest with
      | c :: rest2 =>
        if isCont c then ((b - 192) * 64 + (c - 128)) :: utf8DecodeAux fuel rest2
        else 65533 :: utf8DecodeAux fuel rest
      | [] => [65533]
    else if b < 240 then
      match rest with
      | c :: rest2 =>
        if (if b = 224 then 160 else 128) ≤ c ∧ c ≤ (if b = 237 then 159 else 191) then
          match rest2 with
          | d :: rest3 =>
            if isCont d then
              ((b - 224) * 4096 + (c - 128) * 64 + (d - 128)) :: utf8DecodeAux fuel rest3
            else 65533 :: utf8DecodeAux fuel rest2
          | [] => [65533]
        else 65533 :: utf8DecodeAux fuel rest
      | [] => [65533]
    else if b < 245 then
      match rest with
      | c :: rest2 =>
        if (if b = 240 then 144 else 128) ≤ c ∧ c ≤ (if b = 244 then 143 else 191) then
          match rest2 with
          | d :: rest3 =>
            if isCont d then
              match rest3 with
              | e :: rest4 =>
                if isCont e then
                  ((b - 240) * 262144 + (c - 128) * 4096 + (d - 128) * 64 + (e - 128))
                    :: utf8DecodeAux fuel rest4
                else 65533 :: utf8DecodeAux fuel rest3
              | [] => [65533]
            else 65533 :: utf8DecodeAux fuel rest2
          | [] => [65533]
        else 65533 :: utf8DecodeAux fuel rest
      | [] => [65533]
    else 65533 :: utf8DecodeAux fuel rest

/-- WHATWG UTF-8 decode of a whole byte buffer. -/
def utf8Decode (bs : List Nat) : List Nat := utf8DecodeAux bs.length bs

/-- `TextDecoder.decode` producing a string. -/
def textDecode (bs : List Nat) : String :=
  String.mk ((utf8Decode bs).map Char.ofNat)

/-- JS whitespace (the set trimmed by `String.prototype.trim` and skipped by
`parseInt`): ASCII whitespace, NBSP, BOM and the Unicode space separators. -/
def jsIsWs (c : Char) : Bool :=
  c.toNat = 9 || c.toNat = 10 || c.toNat = 11 || c.toNat = 12 || c.toNat = 13 ||
  c.toNat = 32 || c.toNat = 160 || c.toNat = 5760 ||
  (8192 ≤ c.toNat && c.toNat ≤ 8202) ||
  c.toNat = 8232 || c.toNat = 8233 || c.toNat = 8239 || c.toNat = 8287 ||
  c.toNat = 12288 || c.toNat = 65279

/-- JS `String.prototype.trim`. -/
def jsTrim (s : String) : String :=
  String.mk (((s.data.dropWhile jsIsWs).reverse.dropWhile jsIsWs).reverse)

/-- The value of a hexadecimal digit character as accepted by `parseInt(_, 16)`
(digits, lowercase and uppercase letters). -/
def hexVal (c : Char) : Option Nat :=
  if 48 ≤ c.toNat ∧ c.toNat ≤ 57 then some (c.toNat - 48)
  else if 97 ≤ c.toNat ∧ c.toNat ≤ 102 then some (c.toNat - 87)
  else if 65 ≤ c.toNat ∧ c.toNat ≤ 70 then some (c.toNat - 55)
  else none

/-- JS `parseInt(s, 16)`: skip leading whitespace, an optional sign, an
optional `0x`/`0X` prefix, then take the longest run of hex digits; `none`
models `NaN` (no digit found). -/
def jsParseIntHex (s : String) : Option Int :=
  let l := s.data.dropWhile jsIsWs
  let sign : Int := match l with
    | c :: _ => if c = '-' then -1 else 1
    | [] => 1
  let l1 := match l with
    | c :: t => if c = '-' ∨ c = '+' then t else l
    | [] => l
  let l2 := match l1 with
    | a :: b :: t => if a = '0' ∧ (b = 'x' ∨ b = 'X') then t else l1
    | _ => l1
  let ds := (l2.takeWhile (fun c => (hexVal c).isSome)).map (fun c => (hexVal c).getD 0)
  if ds = [] then none
  else some (sign * Int.ofNat (ds.foldl (fun a d => a * 16 + d) 0))

/-- NaN-propagating addition of JS numbers used as buffer cursors. -/
def oadd : Option Int → Option Int → Option Int
  | some a, some b => some (a + b)
  | _, _ => none

/-- `ToIntegerOrInfinity` plus the relative-index clamping of
`TypedArray.prototype.slice` (`none`, i.e. NaN, converts to 0; a negative
index counts from the end). -/
def jsToIdx (len : Nat) (x : Option Int) : Nat :=
  match x with
  | none => 0
  | some v => if v < 0 then len - min len v.natAbs else min v.toNat len

/-- `buf.slice(s, e)` on a `Uint8Array`. -/
def jsSlice (buf : List Nat) (s e : Option Int) : List Nat :=
  (buf.take (jsToIdx buf.length e)).drop (jsToIdx buf.length s)

/-- The lowercase hex digit characters of `Number.prototype.toString(16)`. -/
def hexDigitChar (d : Nat) : Char :=
  Char.ofNat (if d < 10 then 48 + d else 87 + d)

/-- Digit values of `n.toString(16)`, most significant first. The fuel only
drives the recursion: `n / 16 < n` whenever `n` is not a single digit, so
passing `n` itself as fuel is always enough. -/
def minHexAux : Nat → Nat → List Nat
  | 0, n => [n]
  | fuel + 1, n => if n < 16 then [n] else minHexAux fuel (n / 16) ++ [n % 16]

/-- Digit values of `n.toString(16)`, most significant first. -/
def minHexDigits (n : Nat) : List Nat := minHexAux n n

/-- `n.toString(16).padStart(4, "0")`. -/
def toHex4 (n : Nat) : String :=
  String.mk (List.replicate (4 - (minHexDigits n).length) '0'
    ++ (minHexDigits n).map hexDigitChar)

/-- `pktLine` on raw bytes: the 4-character lowercase-hex length header
(payload length + 4) followed by the payload. -/
def pktLineBytes (payload : List Nat) : List Nat :=
  utf8Encode (toHex4 (payload.length + 4)) ++ payload

/-- `pktLine` applied to a string (the source UTF-8-encodes it first). -/
def pktLineStr (s : String) : List Nat := pktLineBytes (utf8Encode s)

/-- `pktFlush()`: the four bytes of `"0000"`. -/
def pktFlush : List Nat := utf8Encode "0000"

/-- `sidebandPacket`: prepend side-band channel byte 1, then pkt-line frame. -/
def sidebandPacket (data : List Nat) : List Nat := pktLineBytes (1 :: data)

/-- `zeroOid()`: the all-zero 40-character id. -/
def zeroOid : String := String.mk (List.replicate 40 '0')

/-- `join(...p)`: `p.join("/")`. -/
def jn (ps : List String) : String := String.intercalate "/" ps

/-- One stored R2 object: key, body bytes and upload timestamp. -/
structure Entry where
  key : String
  value : List Nat
  uploaded : Nat
deriving DecidableEq

/-- The R2 bucket contents, kept in lexicographic key order. -/
abbrev Store := List Entry

/-- Lexicographic order on characters, then strings (R2 lists keys in
lexicographic UTF-8 byte order, which agrees with code-point order). -/
def charListLt : List Char → List Char → Bool
  | [], [] => false
  | [], _ :: _ => true
  | _ :: _, [] => false
  | a :: as, b :: bs =>
    if a.toNat < b.toNat then true
    else if b.toNat < a.toNat then false
    else charListLt as bs

/-- Lexicographic order on strings. -/
def strLt (a b : String) : Bool := charListLt a.data b.data

/-- `env.GIT_R2.put(k, v)`: overwrite or insert, keeping keys sorted. -/
def r2Put (s : Store) (k : String) (v : List Nat) (now : Nat) : Store :=
  match s with
  | [] => [⟨k, v, now⟩]
  | e :: rest =>
    if strLt k e.key then ⟨k, v, now⟩ :: e :: rest
    else if k = e.key then ⟨k, v, now⟩ :: rest
    else e :: r2Put rest k v now

/-- `env.GIT_R2.get(k)` (the object body, `none` when absent). -/
def r2Get (s : Store) (k : String) : Option (List Nat) :=
  match s with
  | [] => none
  | e :: rest => if e.key = k then some e.value else r2Get rest k

/-- `env.GIT_R2.list({ prefix })`: the objects whose key extends the given
prefix, in stored (lexicographic) order. -/
def r2List (s : Store) (pre : String) : List Entry :=
  s.filter (fun e => pre.data.isPrefixOf e.key.data)

/-- `repoExists`: at least one object under `join("repos", org, repo)`. -/
def repoExists (s : Store) (org repo : String) : Bool :=
  !(r2List s (jn ["repos", org, repo])).isEmpty

/-- JS `key.slice(n)` on a string (drop the first `n` units; keys here are
ASCII, so UTF-16 units coincide with characters). -/
def strDrop (n : Nat) (s : String) : String := String.mk (s.data.drop n)

/-- `listRefs`: enumerate the `refs/heads/` records, trimming each record's
text and skipping records that trim to empty. -/
def listRefs (s : Store) (org repo : String) : List (String × String) :=
  let pre := jn ["repos", org, repo, "refs/heads/"]
  (r2List s pre).filterMap (fun e =>
    let name := strDrop pre.length e.key
    let sha := jsTrim (textDecode e.value)
    if sha = "" then none else some ("refs/heads/" ++ name, sha))

/-- `initRepo`: write `HEAD` as a symbolic ref and a zero-id `main`. -/
def initRepo (s : Store) (org repo : String) (now : Nat) : Store :=
  let base := jn ["repos", org, repo]
  r2Put (r2Put s (jn [base, "HEAD"]) (utf8Encode "ref: refs/heads/main\n") now)
    (jn [base, "refs/heads/main"]) (utf8Encode (zeroOid ++ "\n")) now

/-- `readRef`: a missing or blank record reads as the zero id. -/
def readRef (s : Store) (base ref : String) : String :=
  match r2Get s (jn [base, ref]) with
  | none => zeroOid
  | some v =>
    let t := jsTrim (textDecode v)
    if t = "" then zeroOid else t

/-- The observable parts of a Worker `Response`. -/
structure HttpResponse where
  status : Nat
  body : List Nat
  contentType : String
deriving DecidableEq

/-- The push-side capability string. -/
def capsReceive : String :=
  "report-status delete-refs side-band-64k quiet atomic ofs-delta"

/-- The fetch-side capability string. -/
def capsUpload : String :=
  "multi_ack_detailed multi_ack thin-pack side-band side-band-64k ofs-delta shallow no-progress include-tag"

/-- The ref-advertisement pkt-lines of `handleInfoRefs`: the first listed ref
carries a NUL byte and the capability string (with `sha || zeroOid()` as the
id); an empty listing produces no lines at all, because the `for` loop body
never runs. -/
def advertLines (refs : List (String × String)) (caps : String) : List (List Nat) :=
  match refs with
  | [] => []
  | (ref, sha) :: rest =>
    pktLineStr ((if sha = "" then zeroOid else sha) ++ " " ++ ref ++ "\x00" ++ caps ++ "\n")
      :: rest.map (fun p => pktLineStr (p.2 ++ " " ++ p.1 ++ "\n"))

/-- `handleInfoRefs` (advertise-refs): returns the possibly-updated store and
the HTTP response. `now` is the timestamp R2 assigns to writes. -/
def handleInfoRefs (s : Store) (org repo service : String) (now : Nat) :
    Store × HttpResponse :=
  let ex := repoExists s org repo
  let s1 := if ex = false ∧ service = "git-receive-pack" then initRepo s org repo now else s
  if ex = false ∧ service = "git-upload-pack" then
    (s1, ⟨404, utf8Encode "Repository not found", ""⟩)
  else
    let refs := listRefs s1 org repo
    let caps := if service = "git-receive-pack" then capsReceive else capsUpload
    (s1, ⟨200,
      pktLineStr ("# service=" ++ service ++ "\n") ++ pktFlush
        ++ (advertLines refs caps).flatten ++ pktFlush,
      "application/x-" ++ service ++ "-advertisement"⟩)

/-- The head of `objects.sort((a, b) => b.uploaded - a.uploaded)`: with a
stable descending sort this is the first entry attaining the maximal upload
timestamp, computed here by a left fold that replaces the current best only
on a strictly greater timestamp. -/
def selectLatest : List Entry → Option Entry
  | [] => none
  | e :: rest =>
    some (rest.foldl (fun best x => if best.uploaded < x.uploaded then x else best) e)

/-- The `for (let i = 0; i < packData.length; i += MAX)` slicing of
`handleUploadPack`, with `MAX = 65500`. Each step consumes at least one
byte, so the input length is always enough fuel. -/
def packChunksAux : Nat → List Nat → List (List Nat)
  | 0, _ => []
  | fuel + 1, l => if l = [] then [] else l.take 65500 :: packChunksAux fuel (l.drop 65500)

/-- The side-band slicing of a pack body into at-most-65500-byte chunks. -/
def packChunks (l : List Nat) : List (List Nat) := packChunksAux l.length l

/-- `handleUploadPack` (fetch): serve the most recently stored pack split into
side-band channel-1 frames, or a bare flush when no pack exists. -/
def handleUploadPack (s : Store) (org repo : String) : HttpResponse :=
  let objs := r2List s (jn ["repos", org, repo, "objects/pack/"])
  match selectLatest objs with
  | none => ⟨200, pktFlush, "application/x-git-upload-pack-result"⟩
  | some latest =>
    ⟨200,
      ((packChunks latest.value).map (fun sl => pktLineBytes (1 :: sl))).flatten ++ pktFlush,
      "application/x-git-upload-pack-result"⟩

/-- One push command line: `{ old, new, ref }`. -/
structure Cmd where
  old : String
  new : String
  ref : String
deriving DecidableEq

/-- JS `String.prototype.split` with a one-character separator: splits at
every occurrence, keeping empty pieces; an empty string yields `[""]`. -/
def splitCharAux (sep : Char) : List Char → List (List Char)
  | [] => [[]]
  | c :: rest =>
    let r := splitCharAux sep rest
    if c = sep then [] :: r
    else
      match r with
      | h :: t => (c :: h) :: t
      | [] => [[c]]

/-- JS `s.split(sep)` for a single-character separator. -/
def jsSplit (sep : Char) (s : String) : List String :=
  (splitCharAux sep s.data).map String.mk

/-- The `while (true)` pkt-line loop of `parseReceiveCommands`. `i` is the JS
cursor (`none` = NaN). The fuel bounds the loop, with exhaustion modelling
nontermination; `.error` models the `TypeError` thrown when a line trims and
splits to fewer than three tokens (`refPart` is `undefined`). -/
def parseLoop (buf : List Nat) : Nat → Option Int → List Cmd → Except String (List Cmd)
  | 0, _, _ => .error "nontermination"
  | fuel + 1, i, acc =>
    let len := jsParseIntHex (textDecode (jsSlice buf i (oadd i (some 4))))
    if len = some 0 then .ok acc
    else
      let line := textDecode (jsSlice buf (oadd i (some 4)) (oadd i len))
      match jsSplit ' ' (jsTrim line) with
      | oldSha :: newSha :: refPart :: _ =>
        parseLoop buf fuel (oadd i len)
          (acc ++ [⟨oldSha, newSha, (jsSplit '\x00' refPart).headD ""⟩])
      | _ => .error "TypeError"

/-- The scan loop of `findPackStart` (`for (i = 0; i < buf.length - 4; i++)`;
inside the loop all four reads are in range, so `getD`'s default is inert).
The loop runs at most `buf.length` times, so that length is enough fuel. -/
def findPackAux (buf : List Nat) : Nat → Nat → Nat
  | 0, _ => 0
  | fuel + 1, i =>
    if i < buf.length - 4 then
      if buf.getD i 0 = 0x50 ∧ buf.getD (i + 1) 0 = 0x41
          ∧ buf.getD (i + 2) 0 = 0x43 ∧ buf.getD (i + 3) 0 = 0x4b then i
      else findPackAux buf fuel (i + 1)
    else 0

/-- `findPackStart`: the first offset of the ASCII magic `PACK`, else 0. -/
def findPackStart (buf : List Nat) : Nat := findPackAux buf buf.length 0

/-- The result of `parseReceiveCommands`. -/
structure ParseResult where
  commands : List Cmd
  packStart : Nat
deriving DecidableEq

/-- `parseReceiveCommands`: run the pkt-line loop, then locate the packfile. -/
def parseReceiveCommands (buf : List Nat) : Except String ParseResult :=
  match parseLoop buf (buf.length + 1) (some 0) [] with
  | .error e => .error e
  | .ok cs => .ok ⟨cs, findPackStart buf⟩

/-- The compare-then-report-or-write step of the per-command loop of
`handleReceivePack`, taking the id `current` previously obtained from
`readRef` (split out because the `await` boundary between the read and the
write is where concurrent request interleavings can occur). -/
def commitCmd (s : Store) (base : String) (c : Cmd) (current : String) (now : Nat) :
    Store × List Nat :=
  let oldSha := if c.old = zeroOid then zeroOid else c.old
  if current ≠ oldSha ∧ oldSha ≠ zeroOid then
    (s, pktLineStr ("ng " ++ c.ref ++ " non-fast-forward\n"))
  else
    (r2Put s (jn [base, c.ref]) (utf8Encode (c.new ++ "\n")) now,
      pktLineStr ("ok " ++ c.ref ++ "\n"))

/-- One iteration of the command loop of `handleReceivePack`. -/
def processCmd (s : Store) (base : String) (c : Cmd) (now : Nat) : Store × List Nat :=
  commitCmd s base c (readRef s base c.ref) now

/-- The whole command loop: final store plus the report lines in order. -/
def processCmds (s : Store) (base : String) (cs : List Cmd) (now : Nat) :
    Store × List (List Nat) :=
  match cs with
  | [] => (s, [])
  | c :: rest =>
    let p := processCmd s base c now
    let q := processCmds p.1 base rest now
    (q.1, p.2 :: q.2)

/-- `handleReceivePack` (push). `freshId` stands for the generated
`crypto.randomUUID()` with its dashes removed; `now` is the upload timestamp
R2 assigns to writes; `.error` propagates a parse-time `TypeError`. -/
def handleReceivePack (s : Store) (org repo : String) (body : List Nat)
    (freshId : String) (now : Nat) : Except String (Store × HttpResponse) :=
  match parseReceiveCommands body with
  | .error e => .error e
  | .ok pr =>
    let base := jn ["repos", org, repo]
    let p := processCmds s base pr.commands now
    let results := pktLineStr "unpack ok\n" :: p.2
    let pack := body.drop pr.packStart
    let s2 :=
      if pack.length > 0 then
        r2Put p.1 (jn [base, "objects/pack/pack-" ++ freshId ++ ".pack"]) pack now
      else p.1
    .ok (s2, ⟨200, (results.map sidebandPacket).flatten ++ pktFlush,
      "application/x-git-receive-pack-result"⟩)

/-- The interleaving of two concurrent single-command pushes in which both
`readRef` awaits resolve before either write executes: each request performs
the code's read-then-compare-then-write with an unconditional `put`. -/
def raceInterleaved (s : Store) (base : String) (c1 c2 : Cmd) (now : Nat) :
    Store × List Nat × List Nat :=
  let r1 := readRef s base c1.ref
  let r2 := readRef s base c2.ref
  let p1 := commitCmd s base c1 r1 now
  let p2 := commitCmd p1.1 base c2 r2 now
  (p2.1, p1.2, p2.2)

/-- One frame of the pkt-line decoder: the length-field parse and payload
slice that `parseReceiveCommands` performs at offset 0 (a flush or an
unparseable field yields no payload). -/
def decodeFrame (buf : List Nat) : Option (List Nat) :=
  match jsParseIntHex (textDecode (jsSlice buf (some 0) (some 4))) with
  | none => none
  | some len => if len = 0 then none else some (jsSlice buf (some 4) (some len))

/-! ### Store lemmas -/

theorem charListLt_irrefl (l : List Char) : charListLt l l = false := by
  induction l with
  | nil => rfl
  | cons a t ih => simp [charListLt, ih]

theorem strLt_irrefl (s : String) : strLt s s = false := by
  simp [strLt, charListLt_irrefl]

theorem r2Get_put_same (s : Store) (k : String) (v : List Nat) (now : Nat) :
    r2Get (r2Put s k v now) k = some v := by
  induction s with
  | nil => simp [r2Put, r2Get]
  | cons e rest ih =>
    by_cases h1 : strLt k e.key = true
    · simp [r2Put, h1, r2Get]
    · by_cases h2 : k = e.key
      · subst h2
        simp [r2Put, strLt_irrefl, r2Get]
      · simp [r2Put, h1, h2, r2Get, Ne.symm h2, ih]

theorem r2Get_put_ne (s : Store) (k k' : String) (v : List Nat) (now : Nat)
    (h : k ≠ k') : r2Get (r2Put s k v now) k' = r2Get s k' := by
  induction s with
  | nil => simp [r2Put, r2Get, h]
  | cons e rest ih =>
    by_cases h1 : strLt k e.key = true
    · simp [r2Put, h1, r2Get, h]
    · by_cases h2 : k = e.key
      · subst h2
        simp [r2Put, strLt_irrefl, r2Get, h]
      · simp [r2Put, h1, h2, r2Get, ih]

theorem mem_r2Put (s : Store) (k : String) (v : List Nat) (now : Nat) (x : Entry)
    (h : x ∈ r2Put s k v now) : x = ⟨k, v, now⟩ ∨ x ∈ s := by
  induction s with
  | nil => simpa [r2Put] using h
  | cons e rest ih =>
    by_cases h1 : strLt k e.key = true
    · rw [show r2Put (e :: rest) k v now = ⟨k, v, now⟩ :: e :: rest from by
        simp [r2Put, h1]] at h
      rcases List.mem_cons.mp h with h3 | h3
      · exact Or.inl h3
      · exact Or.inr h3
    · by_cases h2 : k = e.key
      · rw [show r2Put (e :: rest) k v now = ⟨k, v, now⟩ :: rest from by
          simp [r2Put, h1, h2, strLt_irrefl]] at h
        rcases List.mem_cons.mp h with h3 | h3
        · exact Or.inl h3
        · exact Or.inr (List.mem_cons_of_mem _ h3)
      · rw [show r2Put (e :: rest) k v now = e :: r2Put rest k v now from by
          simp [r2Put, h1, h2]] at h
        rcases List.mem_cons.mp h with h3 | h3
        · exact Or.inr (h3 ▸ List.mem_cons_self _ _)
        · rcases ih h3 with h4 | h4
          · exact Or.inl h4
          · exact Or.inr (List.mem_cons_of_mem _ h4)

/-! ### ASCII encoding round trip -/

theorem utf8Encode_ascii_list (l : List Char) (h : ∀ c ∈ l, c.toNat < 128) :
    (l.map utf8EncodeChar).flatten = l.map Char.toNat := by
  induction l with
  | nil => simp
  | cons c t ih =>
    have hc : c.toNat < 128 := h c (by simp)
    simp only [List.map_cons, List.flatten_cons, utf8EncodeChar, hc, if_pos]
    rw [ih (fun x hx => h x (by simp [hx]))]
    rfl

theorem utf8DecodeAux_lt128 (fuel : Nat) (bs : List Nat) (hf : bs.length ≤ fuel)
    (h : ∀ b ∈ bs, b < 128) : utf8DecodeAux fuel bs = bs := by
  induction fuel generalizing bs with
  | zero =>
    cases bs with
    | nil => rfl
    | cons b t => simp at hf
  | succ n ih =>
    cases bs with
    | nil => rfl
    | cons b t =>
      have hb : b < 128 := h b (by simp)
      have ht2 : t.length ≤ n := by simpa using hf
      simp only [utf8DecodeAux, hb, if_true,
        ih t ht2 (fun x hx => h x (by simp [hx]))]

theorem textDecode_utf8Encode (s : String) (h : ∀ c ∈ s.data, c.toNat < 128) :
    textDecode (utf8Encode s) = s := by
  unfold textDecode utf8Decode utf8Encode
  rw [utf8Encode_ascii_list s.data h]
  rw [utf8DecodeAux_lt128 _ _ (by simp) (by intro b hb; rcases List.mem_map.mp hb with ⟨c, hc, rfl⟩; exact h c hc)]
  rw [List.map_map]
  have : (Char.ofNat ∘ Char.toNat) = id := by
    funext c
    exact Char.ofNat_toNat c
  rw [this, List.map_id]

/-! ### Reading a ref back after writing it -/

theorem readRef_put_self (s : Store) (base ref t : String) (now : Nat)
    (ha : ∀ c ∈ (t ++ "\n").data, c.toNat < 128)
    (ht : jsTrim (t ++ "\n") = t) (hne : t ≠ "") :
    readRef (r2Put s (jn [base, ref]) (utf8Encode (t ++ "\n")) now) base ref = t := by
  unfold readRef
  rw [r2Get_put_same]
  dsimp only
  rw [textDecode_utf8Encode _ ha, ht]
  simp [hne]

/-! ### The per-command compare-and-write step -/

theorem commitCmd_eq (s : Store) (base : String) (c : Cmd) (current : String) (now : Nat) :
    commitCmd s base c current now =
      if current ≠ c.old ∧ c.old ≠ zeroOid then
        (s, pktLineStr ("ng " ++ c.ref ++ " non-fast-forward\n"))
      else
        (r2Put s (jn [base, c.ref]) (utf8Encode (c.new ++ "\n")) now,
          pktLineStr ("ok " ++ c.ref ++ "\n")) := by
  unfold commitCmd
  by_cases h : c.old = zeroOid
  · simp [h]
  · simp [h]

/-- A 40-character string of `'b'`, used as a sample object id. -/
def oidB : String := String.mk (List.replicate 40 'b')

/-- C1: in receive-pack, a command whose declared old id is non-zero and
differs from the currently stored id of its ref is answered with the line
`ng <ref> non-fast-forward\n` and leaves the store unchanged; any other
command writes `newId ++ "\n"` to the ref record and is answered with
`ok <ref>\n`; in particular, pushing `refs/heads/main` with a zero old id
against an empty store reports ok and sets the stored id to the pushed
`newId`. -/
theorem c1_receive_command_validation
    (s : Store) (base : String) (c : Cmd) (now : Nat) (newId : String)
    (ha : ∀ ch ∈ (newId ++ "\n").data, ch.toNat < 128)
    (ht : jsTrim (newId ++ "\n") = newId) (hne : newId ≠ "") :
    (c.old ≠ zeroOid → c.old ≠ readRef s base c.ref →
      processCmd s base c now = (s, pktLineStr ("ng " ++ c.ref ++ " non-fast-forward\n")))
    ∧ ((c.old = zeroOid ∨ c.old = readRef s base c.ref) →
      processCmd s base c now =
        (r2Put s (jn [base, c.ref]) (utf8Encode (c.new ++ "\n")) now,
          pktLineStr ("ok " ++ c.ref ++ "\n")))
    ∧ (processCmd [] base ⟨zeroOid, newId, "refs/heads/main"⟩ now).2
        = pktLineStr "ok refs/heads/main\n"
    ∧ readRef (processCmd [] base ⟨zeroOid, newId, "refs/heads/main"⟩ now).1
        base "refs/heads/main" = newId := by
  refine ⟨?_, ?_, ?_, ?_⟩
  · intro h1 h2
    unfold processCmd
    rw [commitCmd_eq, if_pos ⟨Ne.symm h2, h1⟩]
  · intro h
    unfold processCmd
    rw [commitCmd_eq, if_neg]
    rintro ⟨hc1, hc2⟩
    rcases h with h | h
    · exact hc2 h
    · exact hc1 h.symm
  · unfold processCmd
    rw [commitCmd_eq, if_neg (by simp)]
    rfl
  · unfold processCmd
    rw [commitCmd_eq, if_neg (by simp)]
    exact readRef_put_self [] base "refs/heads/main" newId now ha ht hne

/-- Witness for C1 at concrete inputs: the hypotheses hold for the sample id
`oidB`, and the zero-old push of `refs/heads/main` into the empty store
stores exactly that id. -/
theorem c1_receive_command_validation_witness :
    ((∀ ch ∈ (oidB ++ "\n").data, ch.toNat < 128)
        ∧ jsTrim (oidB ++ "\n") = oidB ∧ oidB ≠ "")
      ∧ readRef (processCmd [] "repos/o/r" ⟨zeroOid, oidB, "refs/heads/main"⟩ 0).1
          "repos/o/r" "refs/heads/main" = oidB :=
  ⟨⟨by decide, by decide, by decide⟩,
    (c1_receive_command_validation [] "repos/o/r" ⟨zeroOid, oidB, "refs/heads/main"⟩ 0 oidB
      (by decide) (by decide) (by decide)).2.2.2⟩

/-! ### Racing pushes -/

/-- A 40-character string of `'a'`, used as a sample object id. -/
def oidA : String := String.mk (List.replicate 40 'a')

/-- A 40-character string of `'c'`, used as a sample object id. -/
def oidC : String := String.mk (List.replicate 40 'c')

/-- A one-entry store holding `refs/heads/main` at the id `oidA`. -/
def storeMainA : Store := [⟨"repos/o/r/refs/heads/main", utf8Encode (oidA ++ "\n"), 0⟩]

/-- C2 counterexample: two concurrent pushes race on `refs/heads/main`, both
declaring the stored id `oidA` as their old id. In the interleaving where
both reads resolve before either write, the code reports `ok` for BOTH
pushes (not exactly one), and the final record holds only the second
pushed id: the first update is silently lost. -/
theorem c2_lost_update_counterexample :
    (raceInterleaved storeMainA "repos/o/r"
        ⟨oidA, oidB, "refs/heads/main"⟩ ⟨oidA, oidC, "refs/heads/main"⟩ 1).2.1
      = pktLineStr "ok refs/heads/main\n"
    ∧ (raceInterleaved storeMainA "repos/o/r"
        ⟨oidA, oidB, "refs/heads/main"⟩ ⟨oidA, oidC, "refs/heads/main"⟩ 1).2.2
      = pktLineStr "ok refs/heads/main\n"
    ∧ r2Get (raceInterleaved storeMainA "repos/o/r"
        ⟨oidA, oidB, "refs/heads/main"⟩ ⟨oidA, oidC, "refs/heads/main"⟩ 1).1
        "repos/o/r/refs/heads/main"
      = some (utf8Encode (oidC ++ "\n")) := by
  decide

/-- C2 (amended): the ref write is an unconditional `put`, not conditioned on
the value observed at read time. When the two same-old-id pushes are
serialized, exactly one succeeds (the first reports `ok`, the second
`ng … non-fast-forward` and leaves the store unchanged); but in the
interleaving where both reads resolve before either write, both report `ok`
and the later write silently overwrites the earlier one — a lost update. -/
theorem c2_race_behavior
    (s : Store) (base ref X N1 N2 : String) (now : Nat)
    (hcur : readRef s base ref = X)
    (hX : X ≠ zeroOid)
    (ha : ∀ ch ∈ (N1 ++ "\n").data, ch.toNat < 128)
    (ht : jsTrim (N1 ++ "\n") = N1) (hne : N1 ≠ "") (hN1X : N1 ≠ X) :
    (processCmd s base ⟨X, N1, ref⟩ now).2 = pktLineStr ("ok " ++ ref ++ "\n")
    ∧ (processCmd (processCmd s base ⟨X, N1, ref⟩ now).1 base ⟨X, N2, ref⟩ now).2
        = pktLineStr ("ng " ++ ref ++ " non-fast-forward\n")
    ∧ (processCmd (processCmd s base ⟨X, N1, ref⟩ now).1 base ⟨X, N2, ref⟩ now).1
        = (processCmd s base ⟨X, N1, ref⟩ now).1
    ∧ (raceInterleaved s base ⟨X, N1, ref⟩ ⟨X, N2, ref⟩ now).2.1
        = pktLineStr ("ok " ++ ref ++ "\n")
    ∧ (raceInterleaved s base ⟨X, N1, ref⟩ ⟨X, N2, ref⟩ now).2.2
        = pktLineStr ("ok " ++ ref ++ "\n")
    ∧ r2Get (raceInterleaved s base ⟨X, N1, ref⟩ ⟨X, N2, ref⟩ now).1 (jn [base, ref])
        = some (utf8Encode (N2 ++ "\n")) := by
  have hp1 : processCmd s base ⟨X, N1, ref⟩ now
      = (r2Put s (jn [base, ref]) (utf8Encode (N1 ++ "\n")) now,
          pktLineStr ("ok " ++ ref ++ "\n")) := by
    unfold processCmd
    rw [commitCmd_eq, if_neg]
    rintro ⟨hc, _⟩
    exact hc hcur
  have hread1 : readRef (r2Put s (jn [base, ref]) (utf8Encode (N1 ++ "\n")) now) base ref
      = N1 := readRef_put_self s base ref N1 now ha ht hne
  have hp2 : processCmd (r2Put s (jn [base, ref]) (utf8Encode (N1 ++ "\n")) now) base
      ⟨X, N2, ref⟩ now
      = (r2Put s (jn [base, ref]) (utf8Encode (N1 ++ "\n")) now,
          pktLineStr ("ng " ++ ref ++ " non-fast-forward\n")) := by
    unfold processCmd
    rw [commitCmd_eq, if_pos]
    exact ⟨by rw [hread1]; exact hN1X, hX⟩
  have hr1 : raceInterleaved s base ⟨X, N1, ref⟩ ⟨X, N2, ref⟩ now
      = (r2Put (r2Put s (jn [base, ref]) (utf8Encode (N1 ++ "\n")) now)
            (jn [base, ref]) (utf8Encode (N2 ++ "\n")) now,
          pktLineStr ("ok " ++ ref ++ "\n"), pktLineStr ("ok " ++ ref ++ "\n")) := by
    simp only [raceInterleaved, hcur, commitCmd_eq, ne_eq, eq_self_iff_true, not_true,
      false_and, if_false]
  refine ⟨by rw [hp1], ?_, ?_, by rw [hr1], by rw [hr1], ?_⟩
  · rw [hp1]
    dsimp only
    rw [hp2]
  · rw [hp1]
    dsimp only
    rw [hp2]
  · rw [hr1]
    dsimp only
    rw [r2Get_put_same]

/-- Witness for C2 (amended) at concrete inputs: the hypotheses hold for the
store holding `oidA` and the pushes `oidA → oidB` and `oidA → oidC`. -/
theorem c2_race_behavior_witness :
    (readRef storeMainA "repos/o/r" "refs/heads/main" = oidA
      ∧ oidA ≠ zeroOid
      ∧ (∀ ch ∈ (oidB ++ "\n").data, ch.toNat < 128)
      ∧ jsTrim (oidB ++ "\n") = oidB ∧ oidB ≠ "" ∧ oidB ≠ oidA)
    ∧ r2Get (raceInterleaved storeMainA "repos/o/r"
        ⟨oidA, oidB, "refs/heads/main"⟩ ⟨oidA, oidC, "refs/heads/main"⟩ 1).1
        (jn ["repos/o/r", "refs/heads/main"])
      = some (utf8Encode (oidC ++ "\n")) :=
  ⟨⟨by decide, by decide, by decide, by decide, by decide, by decide⟩,
    (c2_race_behavior storeMainA "repos/o/r" "refs/heads/main" oidA oidB oidC 1
      (by decide) (by decide) (by decide) (by decide) (by decide) (by decide)).2.2.2.2.2⟩

/-! ### Hexadecimal length fields -/

theorem minHexAux_mem_lt (fuel n : Nat) (h : n ≤ fuel) :
    ∀ d ∈ minHexAux fuel n, d < 16 := by
  induction fuel generalizing n with
  | zero =>
    intro d hd
    have hn : n = 0 := Nat.le_zero.mp h
    subst hn
    have : d = 0 := List.mem_singleton.mp hd
    omega
  | succ f ih =>
    intro d hd
    by_cases h16 : n < 16
    · rw [show minHexAux (f + 1) n = [n] from by simp [minHexAux, h16]] at hd
      have : d = n := List.mem_singleton.mp hd
      omega
    · rw [show minHexAux (f + 1) n = minHexAux f (n / 16) ++ [n % 16] from by
        simp [minHexAux, h16]] at hd
      rcases List.mem_append.mp hd with hd2 | hd2
      · have hdiv : n / 16 ≤ f := by
          have := Nat.div_lt_self (show 0 < n by omega) (show 1 < 16 by omega)
          omega
        exact ih (n / 16) hdiv d hd2
      · have : d = n % 16 := List.mem_singleton.mp hd2
        have := Nat.mod_lt n (show 0 < 16 by omega)
        omega

theorem minHexAux_fold (fuel n : Nat) (h : n ≤ fuel) :
    (minHexAux fuel n).foldl (fun a d => a * 16 + d) 0 = n := by
  induction fuel generalizing n with
  | zero =>
    have hn : n = 0 := Nat.le_zero.mp h
    subst hn
    rfl
  | succ f ih =>
    by_cases h16 : n < 16
    · simp [minHexAux, h16]
    · have hdiv : n / 16 ≤ f := by
        have := Nat.div_lt_self (show 0 < n by omega) (show 1 < 16 by omega)
        omega
      rw [show minHexAux (f + 1) n = minHexAux f (n / 16) ++ [n % 16] from by
        simp [minHexAux, h16]]
      rw [List.foldl_append, ih (n / 16) hdiv]
      simp only [List.foldl_cons, List.foldl_nil]
      omega

theorem minHexAux_len (fuel : Nat) : ∀ k n : Nat, n < 16 ^ (k + 1) → n ≤ fuel →
    (minHexAux fuel n).length ≤ k + 1 := by
  induction fuel with
  | zero =>
    intro k n _ _
    simp [minHexAux]
  | succ f ih =>
    intro k n hn hf
    by_cases h16 : n < 16
    · simp [minHexAux, h16]
    · cases k with
      | zero =>
        exact absurd hn (by simpa using h16)
      | succ k2 =>
        have hdiv : n / 16 ≤ f := by
          have := Nat.div_lt_self (show 0 < n by omega) (show 1 < 16 by omega)
          omega
        have hdivpow : n / 16 < 16 ^ (k2 + 1) := by
          rw [Nat.div_lt_iff_lt_mul (by omega)]
          calc n < 16 ^ (k2 + 2) := hn
          _ = 16 ^ (k2 + 1) * 16 := by ring
        have hlen := ih k2 (n / 16) hdivpow hdiv
        rw [show minHexAux (f + 1) n = minHexAux f (n / 16) ++ [n % 16] from by
          simp [minHexAux, h16]]
        simp only [List.length_append, List.length_cons, List.length_nil]
        omega

/-- The per-character facts about the digits emitted by `toString(16)` and
`padStart(4, "0")`, as the `parseInt` model consumes them. -/
def HexCharOk (c : Char) : Prop :=
  (hexVal c).isSome = true ∧ jsIsWs c = false ∧ c ≠ '-' ∧ c ≠ '+' ∧ c ≠ 'x' ∧ c ≠ 'X'
    ∧ c.toNat < 128

instance : DecidablePred HexCharOk := by
  intro c
  unfold HexCharOk
  infer_instance

theorem hexCharOk_zero : HexCharOk '0' ∧ hexVal '0' = some 0 := by
  decide

theorem hexCharOk_digit (d : Nat) (hd : d < 16) :
    HexCharOk (hexDigitChar d) ∧ hexVal (hexDigitChar d) = some d := by
  have hfin : ∀ x : Fin 16, HexCharOk (hexDigitChar x.val)
      ∧ hexVal (hexDigitChar x.val) = some x.val := by
    decide
  exact hfin ⟨d, hd⟩

theorem dropWhile_of_all_false (p : Char → Bool) (l : List Char)
    (h : ∀ c ∈ l, p c = false) : l.dropWhile p = l := by
  cases l with
  | nil => rfl
  | cons c t => simp [List.dropWhile_cons, h c (by simp)]

theorem takeWhile_of_all_true (p : Char → Bool) (l : List Char)
    (h : ∀ c ∈ l, p c = true) : l.takeWhile p = l := by
  induction l with
  | nil => rfl
  | cons c t ih =>
    simp [List.takeWhile_cons, h c (by simp), ih (fun x hx => h x (by simp [hx]))]

theorem jsParseIntHex_of_hexChars (l : List Char) (n : Nat) (hlen : l.length = 4)
    (hP : ∀ c ∈ l, HexCharOk c)
    (hfold : (l.map (fun c => (hexVal c).getD 0)).foldl (fun a d => a * 16 + d) 0 = n) :
    jsParseIntHex (String.mk l) = some (Int.ofNat n) := by
  match l, hlen with
  | [a, b, c, d], _ =>
    have ha := hP a (by simp)
    have hb := hP b (by simp)
    unfold jsParseIntHex
    rw [show (String.mk [a, b, c, d]).data = [a, b, c, d] from rfl]
    rw [dropWhile_of_all_false _ _ (fun x hx => (hP x hx).2.1)]
    dsimp only
    rw [if_neg ha.2.2.1]
    rw [if_neg (show ¬(a = '-' ∨ a = '+') from by
      intro hx
      rcases hx with hx | hx
      · exact ha.2.2.1 hx
      · exact ha.2.2.2.1 hx)]
    dsimp only
    rw [if_neg (show ¬(a = '0' ∧ (b = 'x' ∨ b = 'X')) from by
      rintro ⟨_, hx | hx⟩
      · exact hb.2.2.2.2.1 hx
      · exact hb.2.2.2.2.2.1 hx)]
    rw [takeWhile_of_all_true _ _ (fun x hx => (hP x hx).1)]
    rw [if_neg (by simp)]
    rw [hfold]
    simp

theorem foldl_hex_replicate_zero (z : Nat) :
    (List.replicate z 0).foldl (fun a d => a * 16 + d) 0 = 0 := by
  induction z with
  | zero => rfl
  | succ z2 ih => simpa [List.replicate_succ] using ih

theorem toHex4_data (n : Nat) : (toHex4 n).data =
    List.replicate (4 - (minHexDigits n).length) '0' ++ (minHexDigits n).map hexDigitChar :=
  rfl

theorem toHex4_charOk (n : Nat) : ∀ c ∈ (toHex4 n).data, HexCharOk c := by
  intro c hc
  rw [toHex4_data] at hc
  rcases List.mem_append.mp hc with h | h
  · rw [List.eq_of_mem_replicate h]
    exact hexCharOk_zero.1
  · rcases List.mem_map.mp h with ⟨d, hd, rfl⟩
    exact (hexCharOk_digit d (minHexAux_mem_lt n n le_rfl d hd)).1

theorem toHex4_data_len (n : Nat) (hn : n ≤ 65535) : (toHex4 n).data.length = 4 := by
  have hL : (minHexDigits n).length ≤ 4 := by
    have := minHexAux_len n 3 n (by norm_num; omega) le_rfl
    simpa [minHexDigits] using this
  have hL1 : 1 ≤ (minHexDigits n).length := by
    unfold minHexDigits
    cases n with
    | zero => simp [minHexAux]
    | succ m =>
      by_cases h16 : m + 1 < 16
      · simp [minHexAux, h16]
      · simp [minHexAux, h16]
  rw [toHex4_data]
  simp only [List.length_append, List.length_replicate, List.length_map]
  omega

theorem toHex4_fold (n : Nat) :
    ((toHex4 n).data.map (fun c => (hexVal c).getD 0)).foldl (fun a d => a * 16 + d) 0
      = n := by
  rw [toHex4_data, List.map_append, List.map_replicate, List.map_map]
  rw [show ((hexVal '0').getD 0) = 0 from by decide]
  rw [show List.map ((fun c => (hexVal c).getD 0) ∘ hexDigitChar) (minHexDigits n)
      = List.map id (minHexDigits n) from
    List.map_congr_left (fun d hd => by
      have h16 := minHexAux_mem_lt n n le_rfl d hd
      show (hexVal (hexDigitChar d)).getD 0 = d
      rw [(hexCharOk_digit d h16).2]
      rfl)]
  rw [List.map_id, List.foldl_append, foldl_hex_replicate_zero]
  exact minHexAux_fold n n le_rfl

theorem jsParseIntHex_toHex4 (n : Nat) (hn : n ≤ 65535) :
    jsParseIntHex (toHex4 n) = some (Int.ofNat n) :=
  jsParseIntHex_of_hexChars (toHex4 n).data n (toHex4_data_len n hn) (toHex4_charOk n)
    (toHex4_fold n)

theorem utf8Encode_toHex4 (n : Nat) :
    utf8Encode (toHex4 n) = (toHex4 n).data.map Char.toNat :=
  utf8Encode_ascii_list _ (fun c hc => (toHex4_charOk n c hc).2.2.2.2.2.2)

theorem utf8Encode_toHex4_len (n : Nat) (hn : n ≤ 65535) :
    (utf8Encode (toHex4 n)).length = 4 := by
  rw [utf8Encode_toHex4, List.length_map]
  exact toHex4_data_len n hn

theorem jsSlice_first4 (H t : List Nat) (hH : H.length = 4) :
    jsSlice (H ++ t) (some 0) (some 4) = H := by
  have h4 : jsToIdx (H ++ t).length (some 4) = 4 := by
    unfold jsToIdx
    dsimp only
    rw [if_neg (by decide), show ((4 : Int).toNat) = 4 from rfl]
    simp only [List.length_append, hH]
    omega
  have h0 : jsToIdx (H ++ t).length (some 0) = 0 := by
    unfold jsToIdx
    dsimp only
    rw [if_neg (by decide), show ((0 : Int).toNat) = 0 from rfl]
    omega
  unfold jsSlice
  rw [h4, h0, List.drop_zero, List.take_left' hH]

theorem jsSlice_after4 (H t : List Nat) (e : Int) (hH : H.length = 4)
    (he0 : ¬ e < 0) (het : e.toNat = t.length + 4) :
    jsSlice (H ++ t) (some 4) (some e) = t := by
  have hlen : (H ++ t).length = t.length + 4 := by
    simp only [List.length_append, hH]
    omega
  have he : jsToIdx (H ++ t).length (some e) = t.length + 4 := by
    unfold jsToIdx
    dsimp only
    rw [if_neg he0, het, hlen]
    omega
  have hs : jsToIdx (H ++ t).length (some 4) = 4 := by
    unfold jsToIdx
    dsimp only
    rw [if_neg (by decide), show ((4 : Int).toNat) = 4 from rfl, hlen]
    omega
  unfold jsSlice
  rw [he, hs, List.take_of_length_le (by omega : (H ++ t).length ≤ t.length + 4),
    List.drop_left' hH]

/-- C3: pkt-line decoding inverts pkt-line encoding for every payload of at
most 65531 bytes: the encoder prefixes a 4-character lowercase-hex length
field holding the payload length plus 4, and the decoder parses that field
and returns exactly the following length-minus-4 bytes. -/
theorem c3_pktline_roundtrip (p : List Nat) (h : p.length ≤ 65531) :
    decodeFrame (pktLineBytes p) = some p
    ∧ pktLineBytes p = utf8Encode (toHex4 (p.length + 4)) ++ p
    ∧ (toHex4 (p.length + 4)).length = 4 := by
  have hn : p.length + 4 ≤ 65535 := by omega
  have hhl : (utf8Encode (toHex4 (p.length + 4))).length = 4 :=
    utf8Encode_toHex4_len _ hn
  refine ⟨?_, rfl, toHex4_data_len _ hn⟩
  unfold decodeFrame pktLineBytes
  rw [jsSlice_first4 _ _ hhl,
    textDecode_utf8Encode _ (fun c hc => (toHex4_charOk _ c hc).2.2.2.2.2.2),
    jsParseIntHex_toHex4 _ hn]
  dsimp only
  rw [show Int.ofNat (p.length + 4) = ((p.length + 4 : Nat) : Int) from rfl]
  rw [if_neg (show ¬(((p.length + 4 : Nat) : Int) = 0) from by omega)]
  refine congrArg some (jsSlice_after4 _ p _ hhl ?_ ?_) <;> omega

/-- Witness for C3 at a concrete two-byte payload. -/
theorem c3_pktline_roundtrip_witness :
    ([0, 255] : List Nat).length ≤ 65531
      ∧ decodeFrame (pktLineBytes [0, 255]) = some [0, 255] :=
  ⟨by decide, (c3_pktline_roundtrip [0, 255] (by decide)).1⟩

/-! ### Advertisement -/

/-- Whether `small` occurs contiguously anywhere inside `big`. -/
def hasSubList (big small : List Nat) : Bool :=
  match big with
  | [] => small.isEmpty
  | _ :: t => small.isPrefixOf big || hasSubList t small

/-- A store whose repository namespace holds only a `HEAD` object, so the
repository exists but its `refs/heads/` listing is empty. -/
def storeHeadOnly : Store := [⟨"repos/o/r/HEAD", utf8Encode "ref: refs/heads/main\n", 0⟩]

/-- C4 (evaluating the code at the failing input): against an existing
repository whose ref listing is empty, the advertisement consists of the
service line and two flushes only — the loop body never runs, so no
capability line (and no zero-id placeholder) is emitted at all. -/
theorem c4_empty_listing_drops_capability_line :
    repoExists storeHeadOnly "o" "r" = true
    ∧ listRefs storeHeadOnly "o" "r" = []
    ∧ (handleInfoRefs storeHeadOnly "o" "r" "git-upload-pack" 1).2
        = ⟨200, pktLineStr "# service=git-upload-pack\n" ++ pktFlush ++ pktFlush,
            "application/x-git-upload-pack-advertisement"⟩
    ∧ hasSubList (handleInfoRefs storeHeadOnly "o" "r" "git-upload-pack" 1).2.body
        (utf8Encode zeroOid) = false
    ∧ hasSubList (handleInfoRefs storeHeadOnly "o" "r" "git-upload-pack" 1).2.body
        (utf8Encode capsUpload) = false := by
  decide

/-! ### Repository auto-creation -/

theorem jn_pair_eq (base x : String) : jn [base, x] = base ++ "/" ++ x := rfl

theorem jn_pair_ne (base x y : String) (hxy : x.data ≠ y.data) :
    jn [base, x] ≠ jn [base, y] := by
  intro he
  apply hxy
  rw [jn_pair_eq, jn_pair_eq] at he
  have h2 := congrArg String.data he
  rw [String.data_append, String.data_append, String.data_append,
    String.data_append] at h2
  exact List.append_cancel_left h2

/-- C7: advertise-refs against a repository that does not exist initializes
it for `git-receive-pack` (writing `HEAD` as a symbolic ref to
`refs/heads/main` and the zero id into `refs/heads/main`) and proceeds to a
200 advertisement, while `git-upload-pack` gets a 404 with the store left
untouched. -/
theorem c7_missing_repo_init_or_404 (s : Store) (org repo : String) (now : Nat)
    (h : repoExists s org repo = false) :
    (handleInfoRefs s org repo "git-receive-pack" now).1 = initRepo s org repo now
    ∧ (handleInfoRefs s org repo "git-receive-pack" now).2.status = 200
    ∧ (handleInfoRefs s org repo "git-receive-pack" now).2.contentType
        = "application/x-git-receive-pack-advertisement"
    ∧ r2Get (initRepo s org repo now) (jn [jn ["repos", org, repo], "HEAD"])
        = some (utf8Encode "ref: refs/heads/main\n")
    ∧ r2Get (initRepo s org repo now) (jn [jn ["repos", org, repo], "refs/heads/main"])
        = some (utf8Encode (zeroOid ++ "\n"))
    ∧ handleInfoRefs s org repo "git-upload-pack" now
        = (s, ⟨404, utf8Encode "Repository not found", ""⟩) := by
  have hne : ("git-receive-pack" : String) ≠ "git-upload-pack" := by decide
  have hget1 : r2Get (initRepo s org repo now)
      (jn [jn ["repos", org, repo], "refs/heads/main"])
      = some (utf8Encode (zeroOid ++ "\n")) := by
    unfold initRepo
    exact r2Get_put_same _ _ _ _
  have hget2 : r2Get (initRepo s org repo now) (jn [jn ["repos", org, repo], "HEAD"])
      = some (utf8Encode "ref: refs/heads/main\n") := by
    unfold initRepo
    rw [r2Get_put_ne _ _ _ _ _ (jn_pair_ne _ _ _ (by decide))]
    exact r2Get_put_same _ _ _ _
  refine ⟨?_, ?_, ?_, hget2, hget1, ?_⟩
  · simp [handleInfoRefs, h, hne]
  · simp [handleInfoRefs, h, hne]
  · simp [handleInfoRefs, h, hne]
  · simp [handleInfoRefs, h, hne.symm]

/-- Witness for C7: the empty store has no repository. -/
theorem c7_missing_repo_init_or_404_witness :
    repoExists [] "o" "r" = false
    ∧ (handleInfoRefs [] "o" "r" "git-receive-pack" 0).1 = initRepo [] "o" "r" 0
    ∧ handleInfoRefs [] "o" "r" "git-upload-pack" 0
        = ([], ⟨404, utf8Encode "Repository not found", ""⟩) :=
  ⟨by decide, (c7_missing_repo_init_or_404 [] "o" "r" 0 (by decide)).1,
    (c7_missing_repo_init_or_404 [] "o" "r" 0 (by decide)).2.2.2.2.2⟩

/-! ### Upload-pack -/

theorem foldl_best_spec (t : List Entry) : ∀ e : Entry,
    (t.foldl (fun best x => if best.uploaded < x.uploaded then x else best) e = e
      ∨ t.foldl (fun best x => if best.uploaded < x.uploaded then x else best) e ∈ t)
    ∧ e.uploaded
        ≤ (t.foldl (fun best x => if best.uploaded < x.uploaded then x else best) e).uploaded
    ∧ ∀ x ∈ t, x.uploaded
        ≤ (t.foldl (fun best x => if best.uploaded < x.uploaded then x else best) e).uploaded := by
  induction t with
  | nil =>
    intro e
    exact ⟨Or.inl rfl, le_rfl, by simp⟩
  | cons x t ih =>
    intro e
    simp only [List.foldl_cons]
    rcases ih (if e.uploaded < x.uploaded then x else e) with ⟨hmem, hle, hall⟩
    have hstep : (if e.uploaded < x.uploaded then x else e) = x
        ∨ (if e.uploaded < x.uploaded then x else e) = e := by
      by_cases hc : e.uploaded < x.uploaded
      · exact Or.inl (if_pos hc)
      · exact Or.inr (if_neg hc)
    have hex : e.uploaded ≤ (if e.uploaded < x.uploaded then x else e).uploaded := by
      by_cases hc : e.uploaded < x.uploaded
      · rw [if_pos hc]
        omega
      · rw [if_neg hc]
    have hxx : x.uploaded ≤ (if e.uploaded < x.uploaded then x else e).uploaded := by
      by_cases hc : e.uploaded < x.uploaded
      · rw [if_pos hc]
      · rw [if_neg hc]
        omega
    refine ⟨?_, le_trans hex hle, ?_⟩
    · rcases hmem with hm | hm
      · rw [hm]
        rcases hstep with hs | hs
        · exact Or.inr (by simp [hs])
        · exact Or.inl hs
      · exact Or.inr (by simp [hm])
    · intro y hy
      rcases List.mem_cons.mp hy with hy2 | hy2
      · subst hy2
        exact le_trans hxx hle
      · exact hall y hy2

theorem selectLatest_mem_max (l : List Entry) (e : Entry) (h : selectLatest l = some e) :
    e ∈ l ∧ ∀ x ∈ l, x.uploaded ≤ e.uploaded := by
  cases l with
  | nil => exact absurd h (by simp [selectLatest])
  | cons a t =>
    have he : t.foldl (fun best x => if best.uploaded < x.uploaded then x else best) a = e :=
      Option.some.inj (by simpa [selectLatest] using h)
    rcases foldl_best_spec t a with ⟨hmem, hle, hall⟩
    rw [he] at hmem hle hall
    constructor
    · rcases hmem with hm | hm
      · simp [hm]
      · exact List.mem_cons_of_mem _ hm
    · intro x hx
      rcases List.mem_cons.mp hx with hx2 | hx2
      · subst hx2
        exact hle
      · exact hall x hx2

theorem packChunksAux_flatten (fuel : Nat) : ∀ l : List Nat, l.length ≤ fuel →
    (packChunksAux fuel l).flatten = l := by
  induction fuel with
  | zero =>
    intro l hl
    have : l = [] := List.eq_nil_of_length_eq_zero (Nat.le_zero.mp hl)
    subst this
    rfl
  | succ f ih =>
    intro l hl
    by_cases hnil : l = []
    · subst hnil
      rfl
    · rw [show packChunksAux (f + 1) l = l.take 65500 :: packChunksAux f (l.drop 65500)
        from by simp [packChunksAux, hnil]]
      rw [List.flatten_cons]
      rw [ih (l.drop 65500) (by
        have h1 : 0 < l.length := List.length_pos.mpr hnil
        simp only [List.length_drop]
        omega)]
      exact List.take_append_drop 65500 l

theorem packChunksAux_bound (fuel : Nat) : ∀ l : List Nat, ∀ c ∈ packChunksAux fuel l,
    c.length ≤ 65500 := by
  induction fuel with
  | zero =>
    intro l c hc
    exact absurd hc (by simp [packChunksAux])
  | succ f ih =>
    intro l c hc
    by_cases hnil : l = []
    · subst hnil
      exact absurd hc (by simp [packChunksAux])
    · rw [show packChunksAux (f + 1) l = l.take 65500 :: packChunksAux f (l.drop 65500)
        from by simp [packChunksAux, hnil]] at hc
      rcases List.mem_cons.mp hc with hc2 | hc2
      · subst hc2
        simp [List.length_take]
      · exact ih (l.drop 65500) c hc2

/-- C6: upload-pack against a repository with zero stored packs answers 200
with exactly one flush frame; otherwise it serves the stored pack with the
greatest upload timestamp, split into side-band channel-1 frames of at most
65500 payload bytes whose concatenated payloads reconstruct the pack
exactly, terminated by a single trailing flush. -/
theorem c6_upload_pack_serving (s : Store) (org repo : String) :
    (r2List s (jn ["repos", org, repo, "objects/pack/"]) = [] →
      handleUploadPack s org repo
        = ⟨200, pktFlush, "application/x-git-upload-pack-result"⟩)
    ∧ ∀ e, selectLatest (r2List s (jn ["repos", org, repo, "objects/pack/"])) = some e →
      handleUploadPack s org repo
        = ⟨200, ((packChunks e.value).map (fun sl => pktLineBytes (1 :: sl))).flatten
              ++ pktFlush,
            "application/x-git-upload-pack-result"⟩
      ∧ (packChunks e.value).flatten = e.value
      ∧ (∀ c ∈ packChunks e.value, c.length ≤ 65500)
      ∧ e ∈ r2List s (jn ["repos", org, repo, "objects/pack/"])
      ∧ ∀ x ∈ r2List s (jn ["repos", org, repo, "objects/pack/"]),
          x.uploaded ≤ e.uploaded := by
  constructor
  · intro h
    simp [handleUploadPack, h, selectLatest]
  · intro e he
    rcases selectLatest_mem_max _ e he with ⟨hmem, hmax⟩
    refine ⟨?_, packChunksAux_flatten _ _ le_rfl, packChunksAux_bound _ _, hmem, hmax⟩
    simp [handleUploadPack, he]

/-- Witness for C6: the empty store serves a bare flush, and a store holding
two packs serves the one with the later timestamp. -/
theorem c6_upload_pack_serving_witness :
    (r2List ([] : Store) (jn ["repos", "o", "r", "objects/pack/"]) = []
      ∧ handleUploadPack [] "o" "r"
          = ⟨200, pktFlush, "application/x-git-upload-pack-result"⟩)
    ∧ (selectLatest (r2List
          [⟨"repos/o/r/objects/pack/pack-x.pack", [1, 2], 3⟩,
           ⟨"repos/o/r/objects/pack/pack-y.pack", [4, 5, 6], 9⟩]
          (jn ["repos", "o", "r", "objects/pack/"]))
        = some ⟨"repos/o/r/objects/pack/pack-y.pack", [4, 5, 6], 9⟩
      ∧ handleUploadPack
          [⟨"repos/o/r/objects/pack/pack-x.pack", [1, 2], 3⟩,
           ⟨"repos/o/r/objects/pack/pack-y.pack", [4, 5, 6], 9⟩] "o" "r"
          = ⟨200, ((packChunks [4, 5, 6]).map (fun sl => pktLineBytes (1 :: sl))).flatten
                ++ pktFlush,
              "application/x-git-upload-pack-result"⟩) :=
  ⟨⟨by decide, (c6_upload_pack_serving [] "o" "r").1 (by decide)⟩,
    ⟨by decide,
      ((c6_upload_pack_serving
          [⟨"repos/o/r/objects/pack/pack-x.pack", [1, 2], 3⟩,
           ⟨"repos/o/r/objects/pack/pack-y.pack", [4, 5, 6], 9⟩] "o" "r").2
        ⟨"repos/o/r/objects/pack/pack-y.pack", [4, 5, 6], 9⟩ (by decide)).1⟩⟩

/-! ### Receive-pack response assembly -/

/-- A report line for one command: either its `ok` line or its `ng` line. -/
def isReportFor (line : List Nat) (c : Cmd) : Prop :=
  line = pktLineStr ("ok " ++ c.ref ++ "\n")
    ∨ line = pktLineStr ("ng " ++ c.ref ++ " non-fast-forward\n")

theorem processCmd_report (s : Store) (base : String) (c : Cmd) (now : Nat) :
    isReportFor (processCmd s base c now).2 c := by
  unfold processCmd
  rw [commitCmd_eq]
  by_cases hc : readRef s base c.ref ≠ c.old ∧ c.old ≠ zeroOid
  · rw [if_pos hc]
    exact Or.inr rfl
  · rw [if_neg hc]
    exact Or.inl rfl

theorem processCmds_reports (cs : List Cmd) : ∀ (s : Store) (base : String) (now : Nat),
    List.Forall₂ isReportFor (processCmds s base cs now).2 cs := by
  induction cs with
  | nil =>
    intro s base now
    exact List.Forall₂.nil
  | cons c t ih =>
    intro s base now
    exact List.Forall₂.cons (processCmd_report s base c now) (ih _ base now)

/-- C8: whenever a receive-pack body parses, the response is HTTP 200 whose
body is the `unpack ok` line first (reported unconditionally, before any
per-command outcome), followed by exactly one `ok`/`ng` line per command in
the order received, each individually pkt-line encoded and side-band
channel-1 wrapped, all concatenated and closed by a single trailing flush. -/
theorem c8_receive_pack_response
    (s : Store) (org repo : String) (body : List Nat) (freshId : String) (now : Nat)
    (pr : ParseResult) (hp : parseReceiveCommands body = .ok pr) :
    Except.map (fun p => p.2) (handleReceivePack s org repo body freshId now)
      = .ok ⟨200,
          ((pktLineStr "unpack ok\n"
              :: (processCmds s (jn ["repos", org, repo]) pr.commands now).2).map
            sidebandPacket).flatten ++ pktFlush,
          "application/x-git-receive-pack-result"⟩
    ∧ List.Forall₂ isReportFor
        (processCmds s (jn ["repos", org, repo]) pr.commands now).2 pr.commands := by
  constructor
  · unfold handleReceivePack
    rw [hp]
    rfl
  · exact processCmds_reports pr.commands s (jn ["repos", org, repo]) now

/-- A concrete one-command push body used to witness C8. -/
def c8Body : List Nat :=
  pktLineStr (zeroOid ++ " " ++ oidB ++ " refs/heads/dev") ++ pktFlush

/-- Witness for C8: the concrete body parses to one command and the handler
produces exactly the side-band-wrapped report stream. -/
theorem c8_receive_pack_response_witness :
    parseReceiveCommands c8Body = .ok ⟨[⟨zeroOid, oidB, "refs/heads/dev"⟩], 0⟩
    ∧ Except.map (fun p => p.2) (handleReceivePack [] "o" "r" c8Body "f1" 7)
        = .ok ⟨200,
            ((pktLineStr "unpack ok\n"
                :: (processCmds [] (jn ["repos", "o", "r"])
                      (⟨[⟨zeroOid, oidB, "refs/heads/dev"⟩], 0⟩ : ParseResult).commands
                      7).2).map
              sidebandPacket).flatten ++ pktFlush,
            "application/x-git-receive-pack-result"⟩ :=
  ⟨by decide,
    (c8_receive_pack_response [] "o" "r" c8Body "f1" 7
      ⟨[⟨zeroOid, oidB, "refs/heads/dev"⟩], 0⟩ (by decide)).1⟩

/-! ### Malformed pkt-lines -/

theorem jsSlice_none_end (buf : List Nat) (s : Option Int) : jsSlice buf s none = [] := by
  unfold jsSlice jsToIdx
  dsimp only
  rw [List.take_zero, List.drop_nil]

/-- C9 counterexample: the body `"000g"` starts with a 4-character length
field that is not hexadecimal (`'g'` is no hex digit), yet `parseInt`
accepts its `"000"` prefix as 0, the field is treated as a flush, and the
handler answers HTTP 200 — an HTTP success for a malformed pkt-line. -/
theorem c9_malformed_length_field_accepted :
    (¬ ∀ c ∈ ("000g" : String).data, (hexVal c).isSome = true)
    ∧ Except.map (fun p => p.2.status)
        (handleReceivePack [] "o" "r" (utf8Encode "000g") "f2" 0) = .ok 200 := by
  decide

/-- C9 (amended): a length field with no parseable digit prefix at all
(`parseInt` yields `NaN`) makes the command-line split produce fewer than
three tokens, so the handler throws (`TypeError`) and no HTTP success is
returned; but a malformed field whose longest digit prefix parses to 0,
such as `"000g"`, is treated as a flush and the request succeeds. -/
theorem c9_nan_length_field_aborts (s : Store) (org repo : String) (body : List Nat)
    (freshId : String) (now : Nat)
    (h : jsParseIntHex (textDecode (jsSlice body (some 0) (some 4))) = none) :
    handleReceivePack s org repo body freshId now = .error "TypeError" := by
  have hparse : parseReceiveCommands body = .error "TypeError" := by
    unfold parseReceiveCommands
    rw [show body.length + 1 = Nat.succ body.length from rfl]
    simp only [parseLoop]
    rw [show oadd (some 0) (some 4) = some 4 from rfl, h]
    rw [if_neg (by simp)]
    rw [show oadd (some 0) none = none from rfl, jsSlice_none_end]
    rfl
  unfold handleReceivePack
  rw [hparse]

/-- Witness for C9 (amended) at the concrete body `"zzzz"`. -/
theorem c9_nan_length_field_aborts_witness :
    jsParseIntHex (textDecode (jsSlice (utf8Encode "zzzz") (some 0) (some 4))) = none
    ∧ handleReceivePack [] "o" "r" (utf8Encode "zzzz") "f3" 0 = .error "TypeError" :=
  ⟨by decide, c9_nan_length_field_aborts [] "o" "r" (utf8Encode "zzzz") "f3" 0 (by decide)⟩

/-! ### Pack-start scanning -/

/-- No offset of `buf` starts the 4-byte ASCII magic `PACK` (out-of-range
reads yield `getD`'s default 0, which never matches `'P'`, so bounding the
offset by the length loses nothing). -/
def noPackMagic (buf : List Nat) : Prop :=
  ∀ i < buf.length, ¬(buf.getD i 0 = 0x50 ∧ buf.getD (i + 1) 0 = 0x41
    ∧ buf.getD (i + 2) 0 = 0x43 ∧ buf.getD (i + 3) 0 = 0x4b)

instance (buf : List Nat) : Decidable (noPackMagic buf) := by
  unfold noPackMagic
  infer_instance

theorem findPackAux_eq_zero (buf : List Nat) (h : noPackMagic buf) :
    ∀ fuel i, findPackAux buf fuel i = 0 := by
  intro fuel
  induction fuel with
  | zero =>
    intro i
    rfl
  | succ f ih =>
    intro i
    by_cases hi : i < buf.length - 4
    · rw [show findPackAux buf (f + 1) i
          = (if buf.getD i 0 = 0x50 ∧ buf.getD (i + 1) 0 = 0x41
              ∧ buf.getD (i + 2) 0 = 0x43 ∧ buf.getD (i + 3) 0 = 0x4b then i
            else findPackAux buf f (i + 1)) from by simp [findPackAux, hi]]
      rw [if_neg (h i (by omega))]
      exact ih (i + 1)
    · simp [findPackAux, hi]

theorem findPackStart_eq_zero (buf : List Nat) (h : noPackMagic buf) :
    findPackStart buf = 0 :=
  findPackAux_eq_zero buf h buf.length 0

/-- C10: a receive-pack body containing no `PACK` magic gets pack-start
offset 0 from the scan, so the whole body — pkt-line command section
included — is taken as the packfile, and every processed non-empty such body
is persisted verbatim as a new pack blob under the fresh identifier. -/
theorem c10_no_magic_stores_whole_body :
    (∀ buf : List Nat, noPackMagic buf → findPackStart buf = 0)
    ∧ ∀ (s : Store) (org repo : String) (body : List Nat) (freshId : String) (now : Nat)
        (pr : ParseResult), parseReceiveCommands body = .ok pr → noPackMagic body →
        body ≠ [] →
        Except.map (fun p => r2Get p.1
            (jn [jn ["repos", org, repo], "objects/pack/pack-" ++ freshId ++ ".pack"]))
          (handleReceivePack s org repo body freshId now) = .ok (some body) := by
  constructor
  · exact findPackStart_eq_zero
  · intro s org repo body freshId now pr hp hnp hne
    have hps : pr.packStart = 0 := by
      unfold parseReceiveCommands at hp
      cases hcl : parseLoop body (body.length + 1) (some 0) [] with
      | error e =>
        rw [hcl] at hp
        exact absurd hp (by simp)
      | ok cs =>
        rw [hcl] at hp
        have h2 := Except.ok.inj hp
        rw [← h2]
        exact findPackStart_eq_zero body hnp
    unfold handleReceivePack
    rw [hp]
    dsimp only
    rw [hps, List.drop_zero]
    rw [if_pos (List.length_pos.mpr hne)]
    dsimp only [Except.map]
    rw [r2Get_put_same]

/-- Witness for C10 at the concrete body `"0000"` (a bare flush, no `PACK`
magic): the whole 4-byte body is stored as the pack blob. -/
theorem c10_no_magic_stores_whole_body_witness :
    parseReceiveCommands (utf8Encode "0000") = .ok ⟨[], 0⟩
    ∧ noPackMagic (utf8Encode "0000")
    ∧ utf8Encode "0000" ≠ []
    ∧ Except.map (fun p => r2Get p.1
          (jn [jn ["repos", "o", "r"], "objects/pack/pack-" ++ "f4" ++ ".pack"]))
        (handleReceivePack [] "o" "r" (utf8Encode "0000") "f4" 0)
      = .ok (some (utf8Encode "0000")) :=
  ⟨by decide, by decide, by decide,
    (c10_no_magic_stores_whole_body).2 [] "o" "r" (utf8Encode "0000") "f4" 0
      ⟨[], 0⟩ (by decide) (by decide) (by decide)⟩

/-! ### Ref-record contents -/

/-- A syntactically valid 40-character lowercase-hex object id. -/
def Is40Hex (id : String) : Prop :=
  id.data.length = 40
    ∧ ∀ c ∈ id.data, (48 ≤ c.toNat ∧ c.toNat ≤ 57) ∨ (97 ≤ c.toNat ∧ c.toNat ≤ 102)

instance : DecidablePred Is40Hex := by
  intro id
  unfold Is40Hex
  infer_instance

/-- A ref record holding an id (zero or 40-hex) plus a trailing newline. -/
def goodRecord (v : List Nat) : Prop :=
  ∃ id : String, v = utf8Encode (id ++ "\n") ∧ (id = zeroOid ∨ Is40Hex id)

/-- The claimed invariant: every record stored under the repository's
`refs/heads/` prefix is an id-plus-newline whose id is zero or 40-hex. -/
def RefInv (base : String) (s : Store) : Prop :=
  ∀ e ∈ s, (base ++ "/refs/heads/").data <+: e.key.data → goodRecord e.value

/-- A push body declaring the syntactically invalid new id `"deadbeef"`. -/
def c5Body : List Nat :=
  pktLineStr (zeroOid ++ " deadbeef refs/heads/main") ++ pktFlush

/-- C5 counterexample: receive-pack performs no syntactic validation of the
declared new id, so pushing `"deadbeef"` stores `"deadbeef\n"` in the ref
record — content that is neither the zero id nor a 40-hex id. -/
theorem c5_unvalidated_id_stored :
    Except.map (fun p => r2Get p.1 "repos/o/r/refs/heads/main")
        (handleReceivePack [] "o" "r" c5Body "f5" 5)
      = .ok (some (utf8Encode ("deadbeef" ++ "\n")))
    ∧ ("deadbeef" : String) ≠ zeroOid
    ∧ ¬ Is40Hex "deadbeef" := by
  decide

theorem refInv_put_good (base : String) (s : Store) (k : String) (v : List Nat)
    (now : Nat) (hv : goodRecord v) (hs : RefInv base s) :
    RefInv base (r2Put s k v now) := by
  intro e he hpre
  rcases mem_r2Put s k v now e he with h | h
  · rw [h]
    exact hv
  · exact hs e h hpre

theorem refInv_put_nonref (base : String) (s : Store) (k : String) (v : List Nat)
    (now : Nat) (hk : ¬ (base ++ "/refs/heads/").data <+: k.data) (hs : RefInv base s) :
    RefInv base (r2Put s k v now) := by
  intro e he hpre
  rcases mem_r2Put s k v now e he with h | h
  · rw [h] at hpre
    exact absurd hpre hk
  · exact hs e h hpre

theorem refInv_processCmds (base : String) (cs : List Cmd) :
    ∀ (s : Store) (now : Nat), (∀ c ∈ cs, c.new = zeroOid ∨ Is40Hex c.new) →
      RefInv base s → RefInv base (processCmds s base cs now).1 := by
  induction cs with
  | nil =>
    intro s now _ hs
    exact hs
  | cons c t ih =>
    intro s now hc hs
    simp only [processCmds]
    apply ih _ now (fun x hx => hc x (by simp [hx]))
    unfold processCmd
    rw [commitCmd_eq]
    by_cases hcond : readRef s base c.ref ≠ c.old ∧ c.old ≠ zeroOid
    · rw [if_pos hcond]
      exact hs
    · rw [if_neg hcond]
      exact refInv_put_good base s _ _ now ⟨c.new, rfl, hc c (by simp)⟩ hs

theorem not_prefix_refsheads_of_objects (tail : List Char) :
    ¬ ("/refs/heads/" : String).data <+: ('/' :: 'o' :: tail) := by
  rintro ⟨t, ht⟩
  rw [show ("/refs/heads/" : String).data = '/' :: 'r' :: ("efs/heads/" : String).data
    from rfl] at ht
  simp only [List.cons_append] at ht
  injection ht with h1 h2
  injection h2 with h3 _
  exact absurd h3 (by decide)

theorem not_prefix_refsheads_of_head (base : String) :
    ¬ (base ++ "/refs/heads/").data <+: (jn [base, "HEAD"]).data := by
  rw [jn_pair_eq, String.data_append, String.data_append, String.data_append,
    List.append_assoc]
  rw [List.prefix_append_right_inj]
  decide

theorem not_prefix_refsheads_of_pack (base fid : String) :
    ¬ (base ++ "/refs/heads/").data
      <+: (jn [base, "objects/pack/pack-" ++ fid ++ ".pack"]).data := by
  rw [jn_pair_eq, String.data_append, String.data_append, String.data_append,
    List.append_assoc]
  rw [List.prefix_append_right_inj]
  rw [show ("/" : String).data = ['/'] from rfl, List.singleton_append]
  rw [show ("objects/pack/pack-" ++ fid ++ ".pack").data
      = 'o' :: (("bjects/pack/pack-" : String).data ++ fid.data
          ++ (".pack" : String).data) from by
    rw [String.data_append, String.data_append,
      show ("objects/pack/pack-" : String).data
        = 'o' :: ("bjects/pack/pack-" : String).data from rfl]
    simp [List.cons_append]]
  exact not_prefix_refsheads_of_objects _

/-- C5 (amended): `initRepo` and the receive-pack command loop only ever
write ref records of the form `id ++ "\n"` where the id is the zero id (for
init) or the client-declared new id (for commands), with no syntactic
validation; consequently the invariant "every present ref record is the
zero id or a valid 40-hex id plus newline" is preserved exactly when every
declared new id is itself zero or 40-hex. -/
theorem c5_ref_record_invariant :
    (∀ (s : Store) (org repo : String) (now : Nat),
      RefInv (jn ["repos", org, repo]) s →
      RefInv (jn ["repos", org, repo]) (initRepo s org repo now))
    ∧ ∀ (s : Store) (org repo : String) (body : List Nat) (freshId : String) (now : Nat)
        (pr : ParseResult) (s2 : Store) (resp : HttpResponse),
        handleReceivePack s org repo body freshId now = .ok (s2, resp) →
        parseReceiveCommands body = .ok pr →
        (∀ c ∈ pr.commands, c.new = zeroOid ∨ Is40Hex c.new) →
        RefInv (jn ["repos", org, repo]) s → RefInv (jn ["repos", org, repo]) s2 := by
  constructor
  · intro s org repo now hs
    unfold initRepo
    apply refInv_put_good
    · exact ⟨zeroOid, rfl, Or.inl rfl⟩
    · exact refInv_put_nonref _ _ _ _ _ (not_prefix_refsheads_of_head _) hs
  · intro s org repo body freshId now pr s2 resp hh hp hc hs
    unfold handleReceivePack at hh
    rw [hp] at hh
    dsimp only at hh
    have hinv : RefInv (jn ["repos", org, repo])
        (processCmds s (jn ["repos", org, repo]) pr.commands now).1 :=
      refInv_processCmds _ pr.commands s now hc hs
    by_cases hlen : (body.drop pr.packStart).length > 0
    · rw [if_pos hlen] at hh
      have h2 := (Prod.mk.injEq _ _ _ _).mp (Except.ok.inj hh)
      rw [← h2.1]
      exact refInv_put_nonref _ _ _ _ _ (not_prefix_refsheads_of_pack _ _) hinv
    · rw [if_neg hlen] at hh
      have h2 := (Prod.mk.injEq _ _ _ _).mp (Except.ok.inj hh)
      rw [← h2.1]
      exact hinv

/-- A push body declaring the syntactically valid new id `oidC`. -/
def c5GoodBody : List Nat :=
  pktLineStr (zeroOid ++ " " ++ oidC ++ " refs/heads/main") ++ pktFlush

/-- Witness for C5 (amended) at a concrete well-formed push: all hypotheses
hold and the invariant holds of the resulting store. -/
theorem c5_ref_record_invariant_witness :
    handleReceivePack [] "o" "r" c5GoodBody "f6" 5
      = .ok ([⟨"repos/o/r/objects/pack/pack-f6.pack", c5GoodBody, 5⟩,
              ⟨"repos/o/r/refs/heads/main", utf8Encode (oidC ++ "\n"), 5⟩],
          ⟨200, ((pktLineStr "unpack ok\n" :: [pktLineStr "ok refs/heads/main\n"]).map
              sidebandPacket).flatten ++ pktFlush,
            "application/x-git-receive-pack-result"⟩)
    ∧ parseReceiveCommands c5GoodBody = .ok ⟨[⟨zeroOid, oidC, "refs/heads/main"⟩], 0⟩
    ∧ (∀ c ∈ (⟨[⟨zeroOid, oidC, "refs/heads/main"⟩], 0⟩ : ParseResult).commands,
        c.new = zeroOid ∨ Is40Hex c.new)
    ∧ RefInv (jn ["repos", "o", "r"])
        [⟨"repos/o/r/objects/pack/pack-f6.pack", c5GoodBody, 5⟩,
         ⟨"repos/o/r/refs/heads/main", utf8Encode (oidC ++ "\n"), 5⟩] :=
  ⟨by decide, by decide, by decide,
    c5_ref_record_invariant.2 [] "o" "r" c5GoodBody "f6" 5
      ⟨[⟨zeroOid, oidC, "refs/heads/main"⟩], 0⟩
      [⟨"repos/o/r/objects/pack/pack-f6.pack", c5GoodBody, 5⟩,
       ⟨"repos/o/r/refs/heads/main", utf8Encode (oidC ++ "\n"), 5⟩]
      ⟨200, ((pktLineStr "unpack ok\n" :: [pktLineStr "ok refs/heads/main\n"]).map
          sidebandPacket).flatten ++ pktFlush,
        "application/x-git-receive-pack-result"⟩
      (by decide) (by decide) (by decide)
      (fun e he => absurd he (List.not_mem_nil e))⟩
